import Mathlib

/-! Verification of the source-to-graph analysis pipeline

A shallow embedding of the analysis pipeline of this repository:

* the TypeScript syntax analyzer's complexity metrics and relationship
  extraction (`src/analyzers/typescript.ts`),
* the language-analyzer factory and the Python/Java analyzer stubs,
* the job orchestrator (`src/server/analysis-engine.ts`): file batching,
  per-file failure accounting, progress checkpoints, job finalization and
  temporary-directory cleanup, together with the job-creation state from
  `src/server/tool-handlers.ts`.

External effects (git clone, file reads, the graph database, `fs.rm`) are
modelled by an oracle that fixes the outcome of each effectful call, so a
run of the orchestrator is a pure function of the oracle.  Fresh UUIDs are
not modelled: entity ids are abstract `Nat`s fixed at entity creation, and
the freshly generated placeholder target ids of import/inheritance edges
are represented by a dedicated `placeholder` constructor.
-/

/-! ## Syntax trees and complexity metrics (`src/analyzers/typescript.ts`)

The two complexity traversals (`calculateCyclomaticComplexity`,
`calculateCognitiveComplexity`) only discriminate the node kinds below and
recurse into all children via `ts.forEachChild`; every other TypeScript
node kind behaves like `other`.  A binary expression is split by its
operator token: `&&`, `||`, or anything else. -/

inductive SyntaxKind where
  | ifStatement
  | whileStatement
  | doStatement
  | forStatement
  | forInStatement
  | forOfStatement
  | switchStatement
  | conditionalExpression
  | catchClause
  | caseClause
  | binaryAndAnd
  | binaryOrOr
  | binaryOther
  | other
deriving DecidableEq, Repr

/-- A TypeScript AST node: its `SyntaxKind` plus the children visited by
`ts.forEachChild`. -/
inductive TsNode where
  | mk (kind : SyntaxKind) (children : List TsNode)

def TsNode.kind : TsNode → SyntaxKind
  | .mk k _ => k

def TsNode.children : TsNode → List TsNode
  | .mk _ cs => cs

/-- The per-node increment of `calculateCyclomaticComplexity` (lines
752-769 of `typescript.ts`): `+1` for `if`/`while`/`do`/`for`/`for-in`/
`for-of`/`switch`/conditional/`catch`, `+1` per `case` clause, `+1` per
`&&`/`||` binary expression. -/
def cyclomaticInc : SyntaxKind → Nat
  | .ifStatement => 1
  | .whileStatement => 1
  | .doStatement => 1
  | .forStatement => 1
  | .forInStatement => 1
  | .forOfStatement => 1
  | .switchStatement => 1
  | .conditionalExpression => 1
  | .catchClause => 1
  | .caseClause => 1
  | .binaryAndAnd => 1
  | .binaryOrOr => 1
  | .binaryOther => 0
  | .other => 0

mutual

/-- The `visit` closure of `calculateCyclomaticComplexity`: total increment
contributed by a node and its whole subtree. -/
def cyclomaticVisit : TsNode → Nat
  | .mk k cs => cyclomaticInc k + cyclomaticVisitList cs

def cyclomaticVisitList : List TsNode → Nat
  | [] => 0
  | c :: cs => cyclomaticVisit c + cyclomaticVisitList cs

end

/-- The `TypeScriptAnalyzer.calculateCyclomaticComplexity` (typescript.ts
lines 749-776): base complexity 1 plus the traversal's increments. -/
def calculateCyclomaticComplexity (node : TsNode) : Nat :=
  1 + cyclomaticVisit node

/-- Node kinds whose cognitive-complexity increment is `1 + nesting` and
which increase the nesting level for their children (typescript.ts lines
786-797): the seven control-flow statements and `catch`. -/
def cognitiveNestingKind : SyntaxKind → Bool
  | .ifStatement => true
  | .switchStatement => true
  | .whileStatement => true
  | .doStatement => true
  | .forStatement => true
  | .forInStatement => true
  | .forOfStatement => true
  | .catchClause => true
  | _ => false

/-- The cognitive-complexity increment of one node at nesting level `d`
(typescript.ts lines 783-804): `1 + d` for control-flow kinds and the
conditional expression, flat `1` for `&&`/`||`, `0` otherwise. -/
def cognitiveInc (k : SyntaxKind) (d : Nat) : Nat :=
  if cognitiveNestingKind k then 1 + d
  else if k = .conditionalExpression then 1 + d
  else if k = .binaryAndAnd ∨ k = .binaryOrOr then 1
  else 0

/-- The new nesting level passed to a node's children (typescript.ts:
`newNesting = currentNesting + 1` exactly for the control-flow kinds;
the conditional expression and boolean operators do not nest). -/
def cognitiveChildNesting (k : SyntaxKind) (d : Nat) : Nat :=
  if cognitiveNestingKind k then d + 1 else d

mutual

/-- The `visit` closure of `calculateCognitiveComplexity`: total increment
contributed by a node and its subtree when visited at nesting level `d`. -/
def cognitiveVisit : TsNode → Nat → Nat
  | .mk k cs, d => cognitiveInc k d + cognitiveVisitList cs (cognitiveChildNesting k d)

def cognitiveVisitList : List TsNode → Nat → Nat
  | [], _ => 0
  | c :: cs, d => cognitiveVisit c d + cognitiveVisitList cs d

end

/-- The `TypeScriptAnalyzer.calculateCognitiveComplexity` (typescript.ts lines
778-812): the traversal starts on the node itself at nesting level 0, with
accumulator 0. -/
def calculateCognitiveComplexity (node : TsNode) : Nat :=
  cognitiveVisit node 0

/-! Spec-side counting functions for the cyclomatic claim: the branching
constructs named by the spec (`if`, loop forms, `switch`/`case`,
conditional expression, `catch`) and the short-circuit boolean
operators (`&&`, `||`). -/

/-- Is this kind one of the spec's branching constructs? -/
def isBranchingConstruct : SyntaxKind → Bool
  | .ifStatement => true
  | .whileStatement => true
  | .doStatement => true
  | .forStatement => true
  | .forInStatement => true
  | .forOfStatement => true
  | .switchStatement => true
  | .caseClause => true
  | .conditionalExpression => true
  | .catchClause => true
  | _ => false

/-- Is this kind a short-circuit boolean operator (`&&` or `||`)? -/
def isBoolOp : SyntaxKind → Bool
  | .binaryAndAnd => true
  | .binaryOrOr => true
  | _ => false

mutual

/-- Number of branching constructs in a node's subtree (node included). -/
def branchCount : TsNode → Nat
  | .mk k cs => (if isBranchingConstruct k then 1 else 0) + branchCountList cs

def branchCountList : List TsNode → Nat
  | [] => 0
  | c :: cs => branchCount c + branchCountList cs

end

mutual

/-- Number of short-circuit boolean operators in a node's subtree. -/
def boolOpCount : TsNode → Nat
  | .mk k cs => (if isBoolOp k then 1 else 0) + boolOpCountList cs

def boolOpCountList : List TsNode → Nat
  | [] => 0
  | c :: cs => boolOpCount c + boolOpCountList cs

end

/-! ## Data model (`src/types/index.ts`) -/

/-- The `NodeType` (types/index.ts lines 16-38). -/
inductive NodeType where
  | FILE | FUNCTION | CLASS | INTERFACE | VARIABLE | PACKAGE | MODULE
  | COMPONENT | HOOK | ENDPOINT | DATABASE_TABLE | CONFIG | TEST
  | DESIGN_PATTERN | ARCHITECTURE_LAYER | DEPENDENCY | COMMIT | ISSUE
  | DOCUMENTATION | PERFORMANCE_BOTTLENECK | SECURITY_VULNERABILITY
deriving DecidableEq, Repr

/-- The `RelationshipType` (types/index.ts lines 40-61). -/
inductive RelationshipType where
  | IMPORTS | EXPORTS | CALLS | INHERITS | IMPLEMENTS | CONTAINS
  | DEPENDS_ON | USES | MODIFIES | ACCESSES | TESTS | DOCUMENTS
  | SIMILAR_TO | AFFECTS | TRIGGERS | OPTIMIZES | REPLACES | CONFIGURES
  | DEPLOYS_TO | MONITORS
deriving DecidableEq, Repr

/-- The `LanguageType` (types/index.ts lines 63-80). -/
inductive LanguageType where
  | typescript | javascript | python | java | csharp | cpp | rust | go
  | php | ruby | sql | html | css | yaml | json | dockerfile
deriving DecidableEq, Repr

/-- The `metadata.detectionMethod` of a relationship. -/
inductive DetectionMethod where
  | static | heuristic | ai
deriving DecidableEq, Repr

/-- One entry of a File entity's `properties.imports`, as built by
`extractImports` (typescript.ts lines 833-869): `extractImports` never sets
`moduleId`, so that field is `none` for every import it produces; the
field exists because `extractImportRelationships` reads
`importInfo.moduleId`. -/
structure ImportInfo where
  importType : String
  module : String
  specifiers : List String
  moduleId : Option Nat
deriving DecidableEq, Repr

/-- A code entity (`CodeEntity`, types/index.ts).  `id` stands for the
UUID generated at creation.  Of the open `properties` map only the fields
read by `extractRelationships` are modelled: `imports` (set on File
entities) and `inheritance` (set on Class/Interface entities); both are
`[]` where the source leaves them absent.  Timestamps and the content hash
are not read by any code under verification and are omitted. -/
structure CodeEntity where
  id : Nat
  name : String
  type : NodeType
  language : LanguageType
  filePath : String
  startLine : Nat
  endLine : Nat
  imports : List ImportInfo := []
  inheritance : List String := []
deriving DecidableEq, Repr

/-- A relationship target: either a known entity id, or the freshly
generated placeholder UUID the source produces when the target is
unresolved (`importInfo.moduleId || uuidv4()`, and the inheritance edges'
`targetId: uuidv4()`). -/
inductive RelTarget where
  | entity (id : Nat)
  | placeholder
deriving DecidableEq, Repr

/-- A typed, directed edge (`CodeRelationship`).  The edge's own `id` is a
fresh UUID in the source and is not modelled; the free-form `properties`
map is not read by any verified code and is omitted. -/
structure CodeRelationship where
  sourceId : Nat
  targetId : RelTarget
  type : RelationshipType
  strength : ℚ
  confidence : ℚ
  detectionMethod : DetectionMethod
deriving DecidableEq, Repr

/-! ## Relationship extraction (`typescript.ts` lines 552-681) -/

/-- The `TypeScriptAnalyzer.extractImportRelationships` (lines 573-601): one
IMPORTS edge per import entry of each File entity, strength 0.8,
confidence 0.9; the target falls back to a fresh placeholder id when
the import has no resolved `moduleId`. -/
def extractImportRelationships (entities : List CodeEntity) : List CodeRelationship :=
  entities.flatMap fun e =>
    if e.type = NodeType.FILE then
      e.imports.map fun im =>
        { sourceId := e.id
          targetId := match im.moduleId with
            | some mid => RelTarget.entity mid
            | none => RelTarget.placeholder
          type := RelationshipType.IMPORTS
          strength := 0.8
          confidence := 0.9
          detectionMethod := DetectionMethod.static }
    else []

/-- The `TypeScriptAnalyzer.extractCallRelationships` (lines 606-612):
explicitly unimplemented, returns the empty list. -/
def extractCallRelationships (_entities : List CodeEntity) : List CodeRelationship :=
  []

/-- The `TypeScriptAnalyzer.extractInheritanceRelationships` (lines 617-647):
one INHERITS/IMPLEMENTS edge per inheritance-clause entry of each
Class/Interface entity; the target id is always a fresh placeholder. -/
def extractInheritanceRelationships (entities : List CodeEntity) : List CodeRelationship :=
  entities.flatMap fun e =>
    if e.type = NodeType.CLASS ∨ e.type = NodeType.INTERFACE then
      e.inheritance.map fun inh =>
        { sourceId := e.id
          targetId := RelTarget.placeholder
          type := if inh.startsWith "extends" then RelationshipType.INHERITS
                  else RelationshipType.IMPLEMENTS
          strength := 0.9
          confidence := 0.8
          detectionMethod := DetectionMethod.static }
    else []

/-- The `TypeScriptAnalyzer.extractContainmentRelationships` (lines 652-681):
for every File entity and every non-File entity with the same file path,
one CONTAINS edge, strength 1.0, confidence 1.0. -/
def extractContainmentRelationships (entities : List CodeEntity) : List CodeRelationship :=
  let fileEntities := entities.filter fun e => e.type == NodeType.FILE
  let codeEntities := entities.filter fun e => !(e.type == NodeType.FILE)
  fileEntities.flatMap fun fe =>
    (codeEntities.filter fun ce => ce.filePath == fe.filePath).map fun ce =>
      { sourceId := fe.id
        targetId := RelTarget.entity ce.id
        type := RelationshipType.CONTAINS
        strength := 1
        confidence := 1
        detectionMethod := DetectionMethod.static }

/-- The `TypeScriptAnalyzer.extractRelationships` (lines 552-568): imports,
then (empty) call edges, then inheritance, then containment. -/
def extractRelationships (entities : List CodeEntity) : List CodeRelationship :=
  extractImportRelationships entities
    ++ extractCallRelationships entities
    ++ extractInheritanceRelationships entities
    ++ extractContainmentRelationships entities

/-! ## Analyzer factory and the Python/Java stubs (`typescript.ts` lines 1246-1333) -/

/-- The concrete analyzer classes the factory can instantiate. -/
inductive AnalyzerKind where
  | typeScriptAnalyzer
  | pythonAnalyzer
  | javaAnalyzer
deriving DecidableEq, Repr

/-- The `AnalyzerFactory.createAnalyzer` (lines 1316-1324): the registry maps
typescript and javascript to `TypeScriptAnalyzer`, python to
`PythonAnalyzer`, java to `JavaAnalyzer`; any other language tag throws
`Unsupported language`. -/
def AnalyzerFactory.createAnalyzer : LanguageType → Except String AnalyzerKind
  | .typescript => .ok .typeScriptAnalyzer
  | .javascript => .ok .typeScriptAnalyzer
  | .python => .ok .pythonAnalyzer
  | .java => .ok .javaAnalyzer
  | _ => .error "Unsupported language"

/-- The `PythonAnalyzer.analyzeFile` (lines 1253-1257): stub, returns no
entities for any file. -/
def PythonAnalyzer.analyzeFile (_filePath : String) : List CodeEntity :=
  []

/-- The `PythonAnalyzer.extractRelationships` (lines 1259-1261). -/
def PythonAnalyzer.extractRelationships (_entities : List CodeEntity) : List CodeRelationship :=
  []

/-- The `PythonAnalyzer.validateSyntax` (lines 1271-1273): every content
string is reported valid. -/
def PythonAnalyzer.validateSyntax (_content : String) : Bool :=
  true

/-- The `JavaAnalyzer.analyzeFile` (lines 1283-1287). -/
def JavaAnalyzer.analyzeFile (_filePath : String) : List CodeEntity :=
  []

/-- The `JavaAnalyzer.extractRelationships` (lines 1289-1291). -/
def JavaAnalyzer.extractRelationships (_entities : List CodeEntity) : List CodeRelationship :=
  []

/-- The `JavaAnalyzer.validateSyntax` (lines 1301-1303). -/
def JavaAnalyzer.validateSyntax (_content : String) : Bool :=
  true

/-! ## File batching (`analysis-engine.ts` lines 189-194)

`analyzeFiles` computes `batchSize = Math.ceil(files.length /
parallelWorkers)` and slices the file list into consecutive pieces of that
size.  File counts are far below 2^53, so JavaScript's float ceiling of
the quotient equals the natural-number ceiling modelled here. -/

/-- The `Math.ceil(nFiles / workers)` on naturals. -/
def analysisBatchSize (nFiles workers : Nat) : Nat :=
  (nFiles + workers - 1) / workers

/-- The slicing loop of `analyzeFiles` (lines 192-194), with an explicit
fuel argument so the definition is structural.  The engine calls it with
`fuel = l.length`, which suffices whenever `1 ≤ k`; the `fuel = 0`
equation for a nonempty list is never reached from the engine (there,
`k = 0` happens only for an empty file list, where the JS loop body never
runs). -/
def chunksFuel (k : Nat) : Nat → List α → List (List α)
  | _, [] => []
  | 0, l => [l]
  | fuel + 1, a :: l => ((a :: l).take k) :: chunksFuel k fuel ((a :: l).drop k)

/-- The batch list built by `analyzeFiles`: consecutive slices of size
`analysisBatchSize` (the last slice may be shorter). -/
def makeBatches (workers : Nat) (files : List α) : List (List α) :=
  chunksFuel (analysisBatchSize files.length workers) files.length files

/-! ## Analysis jobs (`tool-handlers.ts` lines 118-138, `types/index.ts`) -/

/-- The `AnalysisJob.status`. -/
inductive JobStatus where
  | pending | running | completed | failed | cancelled
deriving DecidableEq, Repr

/-- Which stage's thrown error the job-queue catch handler recorded in
`job.error` (the source stores the error's message string; the stage tag
is enough to identify it). -/
inductive JobError where
  | cloneFailed | discoverFailed | storeEntitiesFailed
  | storeRelationshipsFailed | cleanupFailed
deriving DecidableEq, Repr

/-- The payload assigned to `job.results` on success (engine lines
77-101); the claims only inspect whether it is populated, so the derived
metrics and summary are reduced to the entity and relationship lists they
are computed from. -/
structure AnalysisResults where
  entities : List CodeEntity
  relationships : List CodeRelationship
deriving DecidableEq, Repr

/-- One `AnalysisJob` value: status, progress, the `metadata` counters,
`results`/`error`, and the `config.parallelWorkers` the engine reads.
Timestamps are not modelled. -/
structure AnalysisJob where
  status : JobStatus
  progress : Nat
  totalFiles : Nat
  processedFiles : Nat
  skippedFiles : Nat
  entitiesFound : Nat
  relationshipsFound : Nat
  results : Option AnalysisResults
  error : Option JobError
  parallelWorkers : Nat
deriving DecidableEq, Repr

/-- The job value created by `ToolHandlers` on `analyze_repository`
(tool-handlers.ts lines 118-138): status pending, progress 0, all
counters 0, no results, no error. -/
def newAnalysisJob (workers : Nat) : AnalysisJob where
  status := JobStatus.pending
  progress := 0
  totalFiles := 0
  processedFiles := 0
  skippedFiles := 0
  entitiesFound := 0
  relationshipsFound := 0
  results := none
  error := none
  parallelWorkers := workers

/-! ## Per-file analysis (`typescript.ts` lines 54-103, engine lines 201-213) -/

/-- The oracle's description of one discovered file: whether `fs.readFile`
succeeds, the verdict of `validateSyntax` on its content, and the entities
the analyzer emits when the file parses. -/
structure SourceFileSpec where
  path : String
  readable : Bool
  syntaxValid : Bool
  entities : List CodeEntity
deriving DecidableEq, Repr

/-- The `TypeScriptAnalyzer.analyzeFile` (typescript.ts lines 54-103): a file
whose read fails throws (any analyzer exception propagates, line 101); a
file whose content fails `validateSyntax` is logged and returns the empty
entity list WITHOUT throwing (lines 62-66); otherwise the extracted
entities are returned. -/
def analyzeFileResult (f : SourceFileSpec) : Except Unit (List CodeEntity) :=
  if f.readable = false then Except.error ()
  else if f.syntaxValid = false then Except.ok []
  else Except.ok f.entities

/-- The per-file loop body of `AnalysisEngine.analyzeFiles` (engine lines
201-213): on success, append the file's entities, increment
`processedFiles` and recompute `progress = 30 +
floor(processedFiles / totalFiles * 40)`; on a thrown error, increment
`skippedFiles` and continue.  The float expression is modelled by natural
floor division: monotonicity in `processedFiles` and the 30..70 range are
unaffected.  The two counter/progress writes happen with no `await`
between them, so the pair is one atomic step of the event loop. -/
def fileStep (job : AnalysisJob) (f : SourceFileSpec) : AnalysisJob × List CodeEntity :=
  match analyzeFileResult f with
  | Except.ok es =>
      let p := job.processedFiles + 1
      ({ job with processedFiles := p, progress := 30 + p * 40 / job.totalFiles }, es)
  | Except.error _ =>
      ({ job with skippedFiles := job.skippedFiles + 1 }, [])

/-- Folding the per-file step over a schedule: the job state after the
shards have processed the files in the order `sched`.  A schedule is any
event-loop interleaving of the shards, i.e. a merge of the batch lists;
every such interleaving is a permutation of the discovered file list. -/
def runSched (job : AnalysisJob) (sched : List SourceFileSpec) : AnalysisJob :=
  sched.foldl (fun j f => (fileStep j f).1) job

/-- All job states observed along a schedule, the starting state
included. -/
def schedStates (job : AnalysisJob) (sched : List SourceFileSpec) : List AnalysisJob :=
  sched.scanl (fun j f => (fileStep j f).1) job

/-- The entities a file contributes to its batch's accumulator (empty for
a skipped or syntactically invalid file). -/
def fileEntitiesOut (f : SourceFileSpec) : List CodeEntity :=
  match analyzeFileResult f with
  | Except.ok es => es
  | Except.error _ => []

/-- The combined entity list of `analyzeFiles` (engine lines 197-223):
each batch accumulates its files' entities in order, and the batch results
are concatenated in batch order — independent of how the event loop
interleaved the batches. -/
def analyzeFilesEntities (workers : Nat) (files : List SourceFileSpec) : List CodeEntity :=
  ((makeBatches workers files).map (fun b => b.flatMap fileEntitiesOut)).flatten

/-- The relationship list of `analyzeFiles` (engine lines 226-230):
extraction runs only when at least one entity was found. -/
def analyzeFilesRelationships (entities : List CodeEntity) : List CodeRelationship :=
  if entities.length > 0 then extractRelationships entities else []

/-! ## Executing one analysis job (`analysis-engine.ts` lines 18-116)

`executeAnalysisJob` drives one job through clone, discovery, sharded
analysis, persistence and finalization; a thrown error anywhere is caught
by `processJobQueue` (lines 29-36), which marks the job failed and records
the error.  The oracle fixes the outcome of each external call. -/

/-- Outcomes of the external calls made while executing one job. -/
structure EngineOracle where
  cloneOk : Bool
  discoverOk : Bool
  files : List SourceFileSpec
  storeEntitiesOk : Bool
  storeRelationshipsOk : Bool
  cleanupOk : Bool
deriving DecidableEq, Repr

/-- The catch handler of `processJobQueue` (engine lines 31-36): mark the
job failed and record the error's message. -/
def failJob (j : AnalysisJob) (e : JobError) : AnalysisJob :=
  { j with status := JobStatus.failed, error := some e }

/-- Everything observable about one executed job: the job states in the
order they were produced (the enqueued state first), whether the
temporary clone directory was created, whether `fs.rm` on it was ever
invoked, and the job's terminal state. -/
structure RunOutcome where
  states : List AnalysisJob
  tempDirAcquired : Bool
  cleanupAttempted : Bool
  finalJob : AnalysisJob
deriving DecidableEq, Repr

/-- The `AnalysisEngine.executeAnalysisJob` (engine lines 46-116) under the
catch handler of `processJobQueue`, as a pure function of the oracle and
of the schedule `sched` in which the event loop interleaved the shards'
files.  Checkpoints follow the source: progress 10 on start, 20 after
clone, `totalFiles` then 30 after discovery, per-file interpolation during
analysis, entity/relationship counters, 80, persistence, 100, completion
with `results`, and only then `fs.rm` of the temporary directory — the
failure path never reaches the `fs.rm` call (line 110), and a thrown
`fs.rm` error is caught by `processJobQueue` like any other. -/
def runAnalysisJob (o : EngineOracle) (sched : List SourceFileSpec)
    (job0 : AnalysisJob) : RunOutcome :=
  let j1 := { job0 with status := JobStatus.running, progress := 10 }
  if o.cloneOk = false then
    { states := [job0, j1, failJob j1 JobError.cloneFailed]
      tempDirAcquired := false
      cleanupAttempted := false
      finalJob := failJob j1 JobError.cloneFailed }
  else
  let j2 := { j1 with progress := 20 }
  if o.discoverOk = false then
    { states := [job0, j1, j2, failJob j2 JobError.discoverFailed]
      tempDirAcquired := true
      cleanupAttempted := false
      finalJob := failJob j2 JobError.discoverFailed }
  else
  let j3 := { j2 with totalFiles := o.files.length }
  let j4 := { j3 with progress := 30 }
  let fileStates := schedStates j4 sched
  let j5 := runSched j4 sched
  let entities := analyzeFilesEntities job0.parallelWorkers o.files
  let rels := analyzeFilesRelationships entities
  let j6 := { j5 with entitiesFound := entities.length,
                      relationshipsFound := rels.length }
  let j7 := { j6 with progress := 80 }
  let prefixStates := [job0, j1, j2, j3] ++ fileStates ++ [j6, j7]
  if o.storeEntitiesOk = false then
    { states := prefixStates ++ [failJob j7 JobError.storeEntitiesFailed]
      tempDirAcquired := true
      cleanupAttempted := false
      finalJob := failJob j7 JobError.storeEntitiesFailed }
  else
  if o.storeRelationshipsOk = false then
    { states := prefixStates ++ [failJob j7 JobError.storeRelationshipsFailed]
      tempDirAcquired := true
      cleanupAttempted := false
      finalJob := failJob j7 JobError.storeRelationshipsFailed }
  else
  let j8 := { j7 with progress := 100 }
  let j9 := { j8 with status := JobStatus.completed,
                      results := some ⟨entities, rels⟩ }
  if o.cleanupOk = false then
    { states := prefixStates ++ [j8, j9, failJob j9 JobError.cleanupFailed]
      tempDirAcquired := true
      cleanupAttempted := true
      finalJob := failJob j9 JobError.cleanupFailed }
  else
    { states := prefixStates ++ [j8, j9]
      tempDirAcquired := true
      cleanupAttempted := true
      finalJob := j9 }

/-! ## Theorems about the complexity metrics (claims C3, C4) -/

theorem cyclomaticInc_eq_counts (k : SyntaxKind) :
    cyclomaticInc k
      = (if isBranchingConstruct k then 1 else 0) + (if isBoolOp k then 1 else 0) := by
  cases k <;> rfl

mutual

theorem cyclomaticVisit_eq_counts (n : TsNode) :
    cyclomaticVisit n = branchCount n + boolOpCount n := by
  cases n with
  | mk k cs =>
    rw [cyclomaticVisit, branchCount, boolOpCount, cyclomaticInc_eq_counts,
      cyclomaticVisitList_eq_counts cs]
    omega

theorem cyclomaticVisitList_eq_counts (l : List TsNode) :
    cyclomaticVisitList l = branchCountList l + boolOpCountList l := by
  cases l with
  | nil => rfl
  | cons c cs =>
    rw [cyclomaticVisitList, branchCountList, boolOpCountList,
      cyclomaticVisit_eq_counts c, cyclomaticVisitList_eq_counts cs]
    omega

end

/-- A function declaration node whose body contains no branching
construct and no short-circuit operator. -/
def funcNoBranch : TsNode :=
  TsNode.mk .other [TsNode.mk .other [], TsNode.mk .other []]

/-- The same function with one `if` added (its condition a plain
comparison, i.e. a non-short-circuit binary expression). -/
def funcWithIf : TsNode :=
  TsNode.mk .other [TsNode.mk .other [], TsNode.mk .other [],
    TsNode.mk .ifStatement [TsNode.mk .binaryOther [], TsNode.mk .other []]]

/-- The same function with one `&&` added inside the `if`'s condition. -/
def funcWithIfAnd : TsNode :=
  TsNode.mk .other [TsNode.mk .other [], TsNode.mk .other [],
    TsNode.mk .ifStatement
      [TsNode.mk .binaryAndAnd [TsNode.mk .binaryOther [], TsNode.mk .binaryOther []],
       TsNode.mk .other []]]

/-- C3: for every declaration node, the computed cyclomatic complexity is
1 (base) plus one per branching construct (`if`, `while`, `do`, `for`,
`for-in`, `for-of`, `switch`, `case`, conditional expression, `catch`)
plus one per short-circuit boolean operator (`&&`, `||`) in the node's
subtree; in particular a function with no branching constructs scores
exactly 1, adding one `if` gives 2, and adding one `&&` inside that `if`'s
condition gives 3. -/
theorem cyclomatic_complexity_matches_spec :
    (∀ n : TsNode,
      calculateCyclomaticComplexity n = 1 + branchCount n + boolOpCount n) ∧
    calculateCyclomaticComplexity funcNoBranch = 1 ∧
    calculateCyclomaticComplexity funcWithIf = 2 ∧
    calculateCyclomaticComplexity funcWithIfAnd = 3 := by
  refine ⟨fun n => ?_, by decide, by decide, by decide⟩
  rw [calculateCyclomaticComplexity, cyclomaticVisit_eq_counts n]
  omega

/-- A function declaration with a single top-level `if`. -/
def funcSingleIf : TsNode :=
  TsNode.mk .other
    [TsNode.mk .ifStatement [TsNode.mk .binaryOther [], TsNode.mk .other []]]

/-- An `if` with a plain condition and a plain body, to be nested inside
another `if`. -/
def innerIfNode : TsNode :=
  TsNode.mk .ifStatement [TsNode.mk .binaryOther [], TsNode.mk .other []]

/-- The `funcSingleIf` with the `if` wrapped inside another `if`. -/
def funcNestedIf : TsNode :=
  TsNode.mk .other
    [TsNode.mk .ifStatement [TsNode.mk .binaryOther [], innerIfNode]]

/-- A function declaration containing a `switch` with one `case`
clause. -/
def funcSwitchCase : TsNode :=
  TsNode.mk .other
    [TsNode.mk .switchStatement [TsNode.mk .caseClause []]]

/-- Counterexample to C4 as stated: the `case` clause belongs to the
branching set — cyclomatic complexity counts it, scoring this function
3 — but `calculateCognitiveComplexity` never tests for case clauses
(typescript.ts lines 786-804), so the `case` clause at nesting depth 1
contributes 0, not the claimed `1 + currentNestingDepth = 2`, and the
function's cognitive complexity is 1 (the `switch` alone). -/
theorem case_clause_cognitive_counterexample :
    isBranchingConstruct SyntaxKind.caseClause = true ∧
    calculateCyclomaticComplexity funcSwitchCase = 3 ∧
    calculateCognitiveComplexity funcSwitchCase = 1 ∧
    cognitiveVisit (TsNode.mk .caseClause []) 1 = 0 :=
  ⟨rfl, by decide, by decide, by decide⟩

/-- C4 (amended): the cognitive-complexity traversal adds
`1 + currentNestingDepth` for each control-flow construct (`if`,
`switch`, the loop forms, `catch`) and for the conditional expression —
but NOT for a `case` clause, which adds 0 even though it belongs to the
branching set; the nesting depth increases only for the control-flow
constructs (not for the conditional expression or boolean operators); a
short-circuit boolean operator adds a flat 1 at any depth; in particular
a function with a single top-level `if` scores 1, nesting that `if`
inside another `if` makes the inner `if` contribute 2 (total 3), and a
boolean operator contributes exactly 1 at any depth. -/
theorem cognitive_complexity_corrected :
    (∀ (k : SyntaxKind) (cs : List TsNode) (d : Nat),
      cognitiveNestingKind k = true →
      cognitiveVisit (TsNode.mk k cs) d = (1 + d) + cognitiveVisitList cs (d + 1)) ∧
    (∀ (cs : List TsNode) (d : Nat),
      cognitiveVisit (TsNode.mk .conditionalExpression cs) d
        = (1 + d) + cognitiveVisitList cs d) ∧
    (∀ (cs : List TsNode) (d : Nat),
      cognitiveVisit (TsNode.mk .caseClause cs) d = cognitiveVisitList cs d) ∧
    (∀ (cs : List TsNode) (d : Nat),
      cognitiveVisit (TsNode.mk .binaryAndAnd cs) d = 1 + cognitiveVisitList cs d) ∧
    (∀ (cs : List TsNode) (d : Nat),
      cognitiveVisit (TsNode.mk .binaryOrOr cs) d = 1 + cognitiveVisitList cs d) ∧
    (∀ d : Nat, cognitiveVisit (TsNode.mk .binaryAndAnd []) d = 1) ∧
    calculateCognitiveComplexity funcSingleIf = 1 ∧
    cognitiveVisit innerIfNode 1 = 2 ∧
    calculateCognitiveComplexity funcNestedIf = 3 := by
  refine ⟨?_, ?_, ?_, ?_, ?_, ?_, by decide, by decide, by decide⟩
  · intro k cs d hk
    rw [cognitiveVisit, cognitiveInc, cognitiveChildNesting, hk]
    simp
  · intro cs d
    rw [cognitiveVisit]
    rfl
  · intro cs d
    rw [cognitiveVisit]
    simp [cognitiveInc, cognitiveChildNesting, cognitiveNestingKind]
  · intro cs d
    rw [cognitiveVisit]
    rfl
  · intro cs d
    rw [cognitiveVisit]
    rfl
  · intro d
    rw [cognitiveVisit]
    rfl

/-- Witness for `cognitive_complexity_corrected`: its first conjunct
applied to an `if` with no children at nesting depth 0. -/
theorem cognitive_complexity_corrected_witness :
    cognitiveVisit (TsNode.mk .ifStatement []) 0
      = (1 + 0) + cognitiveVisitList [] (0 + 1) :=
  cognitive_complexity_corrected.1 .ifStatement [] 0 rfl

/-! ## The Python/Java stubs through the factory (claim C10) -/

/-- C10: the factory maps the python and java language tags to the
`PythonAnalyzer` and `JavaAnalyzer` stubs, whose `analyzeFile` returns no
entities for any file path, whose `extractRelationships` returns no
relationships for any entity set, and whose `validateSyntax` accepts
every content string — so those language tags always yield zero entities
without error. -/
theorem python_java_analyzers_are_stubs :
    (∀ filePath content : String, ∀ entities : List CodeEntity,
      PythonAnalyzer.analyzeFile filePath = [] ∧
      PythonAnalyzer.extractRelationships entities = [] ∧
      PythonAnalyzer.validateSyntax content = true ∧
      JavaAnalyzer.analyzeFile filePath = [] ∧
      JavaAnalyzer.extractRelationships entities = [] ∧
      JavaAnalyzer.validateSyntax content = true) ∧
    AnalyzerFactory.createAnalyzer LanguageType.python
      = Except.ok AnalyzerKind.pythonAnalyzer ∧
    AnalyzerFactory.createAnalyzer LanguageType.java
      = Except.ok AnalyzerKind.javaAnalyzer :=
  ⟨fun _ _ _ => ⟨rfl, rfl, rfl, rfl, rfl, rfl⟩, rfl, rfl⟩

/-! ## Per-file failure accounting (claim C1)

The claim says a syntactically invalid file makes `analyze` fail with a
`ParseError` and increments the job's `skippedFiles`.  The source does
neither: `analyzeFile` checks `validateSyntax` and, on failure, logs a
warning and RETURNS an empty entity list (typescript.ts lines 62-66), so
the engine's per-file `catch` never fires and `processedFiles` — not
`skippedFiles` — is incremented (engine lines 203-212).  Only a genuinely
thrown analyzer error (e.g. an unreadable file) increments
`skippedFiles`. -/

/-- A readable file whose content is not valid syntax for its declared
language. -/
def invalidSyntaxFile : SourceFileSpec where
  path := "src/bad.ts"
  readable := true
  syntaxValid := false
  entities := []

/-- Counterexample to C1 as stated: running a one-file job on a readable
file with invalid syntax, `analyzeFile` succeeds with zero entities
instead of failing with a parse error, and the job ends with
`skippedFiles = 0` and `processedFiles = 1`. -/
theorem invalid_syntax_file_is_not_skipped :
    analyzeFileResult invalidSyntaxFile = Except.ok [] ∧
    (runSched { newAnalysisJob 1 with totalFiles := 1 }
        [invalidSyntaxFile]).skippedFiles = 0 ∧
    (runSched { newAnalysisJob 1 with totalFiles := 1 }
        [invalidSyntaxFile]).processedFiles = 1 := by
  refine ⟨rfl, rfl, rfl⟩

/-- C1 (amended): a file whose content is not valid syntax is analyzed
WITHOUT error — `analyzeFile` returns the empty entity list, zero entities
are emitted for it, and the job's `processedFiles` (not `skippedFiles`)
increases by exactly one for it; `skippedFiles` increases by exactly one
precisely for the files where `analyzeFile` throws (e.g. an unreadable
file); in both cases the rest of the batch continues. -/
theorem invalid_syntax_file_accounting (f : SourceFileSpec) (j : AnalysisJob) :
    (f.readable = true → f.syntaxValid = false →
      analyzeFileResult f = Except.ok [] ∧
      (fileStep j f).2 = [] ∧
      (fileStep j f).1.skippedFiles = j.skippedFiles ∧
      (fileStep j f).1.processedFiles = j.processedFiles + 1) ∧
    (f.readable = false →
      analyzeFileResult f = Except.error () ∧
      (fileStep j f).2 = [] ∧
      (fileStep j f).1.skippedFiles = j.skippedFiles + 1 ∧
      (fileStep j f).1.processedFiles = j.processedFiles) ∧
    (∀ fs : List SourceFileSpec,
      runSched j (f :: fs) = runSched ((fileStep j f).1) fs) := by
  refine ⟨fun hr hs => ?_, fun hr => ?_, fun fs => rfl⟩
  · have h : analyzeFileResult f = Except.ok [] := by
      rw [analyzeFileResult, hr, hs]
      rfl
    refine ⟨h, ?_, ?_, ?_⟩ <;> simp [fileStep, h]
  · have h : analyzeFileResult f = Except.error () := by
      rw [analyzeFileResult, hr]
      rfl
    refine ⟨h, ?_, ?_, ?_⟩ <;> simp [fileStep, h]

/-- Witness for `invalid_syntax_file_accounting`: the invalid-syntax case
at a concrete file and the fresh job. -/
theorem invalid_syntax_file_accounting_witness :
    analyzeFileResult invalidSyntaxFile = Except.ok [] ∧
    (fileStep (newAnalysisJob 1) invalidSyntaxFile).2 = [] ∧
    (fileStep (newAnalysisJob 1) invalidSyntaxFile).1.skippedFiles
      = (newAnalysisJob 1).skippedFiles ∧
    (fileStep (newAnalysisJob 1) invalidSyntaxFile).1.processedFiles
      = (newAnalysisJob 1).processedFiles + 1 :=
  (invalid_syntax_file_accounting invalidSyntaxFile (newAnalysisJob 1)).1 rfl rfl

/-! ## Sharding the file list (claim C9)

`analyzeFiles` slices the file list into consecutive pieces of size
`ceil(n / parallelWorkers)`.  The number of pieces is
`ceil(n / ceil(n / w))`, which can be STRICTLY SMALLER than `w` (e.g. 5
files over 4 workers give batch size 2 and only 3 batches), so the claim
that the list is partitioned into exactly `parallelWorkers` shards fails;
everything else about the partition holds. -/

theorem chunksFuel_nil (k fuel : Nat) : chunksFuel (α := α) k fuel [] = [] := by
  cases fuel <;> rfl

theorem chunksFuel_flatten (k : Nat) (hk : 1 ≤ k) :
    ∀ (fuel : Nat) (l : List α), l.length ≤ fuel →
      (chunksFuel k fuel l).flatten = l := by
  intro fuel
  induction fuel with
  | zero =>
    intro l hl
    rw [List.length_eq_zero.mp (Nat.le_zero.mp hl)]
    rfl
  | succ fuel ih =>
    intro l hl
    cases l with
    | nil => rfl
    | cons a l =>
      rw [chunksFuel, List.flatten_cons, ih _ (by simp at hl ⊢; omega),
        List.take_append_drop]

theorem chunksFuel_length_le (k : Nat) :
    ∀ (w fuel : Nat) (l : List α), l.length ≤ w * k → l.length ≤ fuel →
      (chunksFuel k fuel l).length ≤ w := by
  intro w
  induction w with
  | zero =>
    intro fuel l hw _
    have hl0 : l.length = 0 := by simpa using hw
    rw [List.length_eq_zero.mp hl0, chunksFuel_nil]
    simp
  | succ w ih =>
    intro fuel l hw hf
    cases l with
    | nil => rw [chunksFuel_nil]; simp
    | cons a l =>
      cases fuel with
      | zero => simp at hf
      | succ fuel =>
        rw [chunksFuel, List.length_cons]
        have hk : 1 ≤ k := by
          rcases Nat.eq_zero_or_pos k with hk0 | hk0
          · subst hk0; simp at hw
          · exact hk0
        have h1 : ((a :: l).drop k).length ≤ w * k := by
          rw [List.length_drop, List.length_cons]
          rw [List.length_cons, Nat.succ_mul] at hw
          omega
        have h2 : ((a :: l).drop k).length ≤ fuel := by
          rw [List.length_drop, List.length_cons]
          rw [List.length_cons] at hf
          omega
        exact Nat.succ_le_succ (ih fuel _ h1 h2)

theorem chunksFuel_dropLast_length (k : Nat) (hk : 1 ≤ k) :
    ∀ (fuel : Nat) (l : List α), l.length ≤ fuel →
      ∀ b ∈ (chunksFuel k fuel l).dropLast, b.length = k := by
  intro fuel
  induction fuel with
  | zero =>
    intro l hl
    rw [List.length_eq_zero.mp (Nat.le_zero.mp hl), chunksFuel_nil]
    simp
  | succ fuel ih =>
    intro l hl b hb
    cases l with
    | nil => rw [chunksFuel_nil] at hb; simp at hb
    | cons a l =>
      rw [chunksFuel] at hb
      rcases hrest : chunksFuel k fuel ((a :: l).drop k) with _ | ⟨r, rs⟩
      · rw [hrest] at hb
        simp at hb
      · rw [hrest, List.dropLast_cons_of_ne_nil (by simp), List.mem_cons] at hb
        rcases hb with hb | hb
        · have hne : (a :: l).drop k ≠ [] := by
            intro hdrop
            rw [hdrop, chunksFuel_nil] at hrest
            exact List.noConfusion hrest
          have hlen : k < (a :: l).length := by
            by_contra hcon
            exact hne (List.drop_eq_nil_of_le (by omega))
          rw [hb, List.length_take]
          omega
        · have h2 : ((a :: l).drop k).length ≤ fuel := by
            simp at hl ⊢
            omega
          exact ih _ h2 b (by rw [hrest]; exact hb)

theorem chunksFuel_mem_ne_nil (k : Nat) (hk : 1 ≤ k) :
    ∀ (fuel : Nat) (l : List α), l.length ≤ fuel →
      ∀ b ∈ chunksFuel k fuel l, b ≠ [] ∧ b.length ≤ k := by
  intro fuel
  induction fuel with
  | zero =>
    intro l hl b hb
    have hl0 : l.length = 0 := by omega
    rw [List.length_eq_zero.mp hl0, chunksFuel_nil] at hb
    simp at hb
  | succ fuel ih =>
    intro l hl b hb
    cases l with
    | nil => rw [chunksFuel_nil] at hb; simp at hb
    | cons a l =>
      rw [chunksFuel, List.mem_cons] at hb
      rcases hb with hb | hb
      · subst hb
        refine ⟨?_, by rw [List.length_take]; omega⟩
        rcases k with _ | k
        · omega
        · simp [List.take_cons]
      · refine ih _ ?_ b hb
        rw [List.length_drop, List.length_cons]
        rw [List.length_cons] at hl
        omega

/-- With at least one file, `batchSize = ceil(n / w)` is at least 1, and
`n ≤ w * batchSize`. -/
theorem analysisBatchSize_bounds (n w : Nat) (hw : 1 ≤ w) (hn : 1 ≤ n) :
    1 ≤ analysisBatchSize n w ∧ n ≤ w * analysisBatchSize n w := by
  rcases n with _ | m
  · omega
  · have hdiv : analysisBatchSize (m + 1) w = m / w + 1 := by
      rw [analysisBatchSize, show m + 1 + w - 1 = m + w by omega,
        Nat.add_div_right m hw]
    rw [hdiv]
    constructor
    · exact Nat.le_add_left 1 (m / w)
    · have h3 : m < (m / w + 1) * w := (Nat.div_lt_iff_lt_mul hw).mp (Nat.lt_succ_self _)
      rw [Nat.mul_comm]
      exact h3

/-- Counterexample to C9 as stated: 5 files shared over `parallelWorkers
= 4` give batch size `ceil(5/4) = 2` and only `ceil(5/2) = 3` shards, not
4 — even though the shards still concatenate to the original list. -/
theorem five_files_four_workers_give_three_batches :
    makeBatches 4 [0, 1, 2, 3, 4] = [[0, 1], [2, 3], [4]] ∧
    (makeBatches 4 [0, 1, 2, 3, 4]).length ≠ 4 ∧
    (makeBatches 4 [0, 1, 2, 3, 4]).flatten = [0, 1, 2, 3, 4] := by
  refine ⟨rfl, by decide, rfl⟩

/-- C9 (amended): for every non-empty file list and `parallelWorkers ≥
1`, the list is split into AT MOST `parallelWorkers` contiguous shards of
size `ceil(n / parallelWorkers)` each, only the last shard possibly
smaller (every shard is non-empty); concatenating the shards in order
gives back the original list, so each file appears in exactly one
shard.  (The number of shards is `ceil(n / ceil(n / w))`, which can be
strictly less than `w`.) -/
theorem makeBatches_partition (files : List α) (w : Nat)
    (hw : 1 ≤ w) (hne : files ≠ []) :
    (makeBatches w files).flatten = files ∧
    (makeBatches w files).length ≤ w ∧
    (∀ b ∈ (makeBatches w files).dropLast,
      b.length = analysisBatchSize files.length w) ∧
    (∀ b ∈ makeBatches w files,
      b ≠ [] ∧ b.length ≤ analysisBatchSize files.length w) := by
  have hn : 1 ≤ files.length := by
    cases files with
    | nil => exact absurd rfl hne
    | cons a l => simp
  obtain ⟨hk, hwk⟩ := analysisBatchSize_bounds files.length w hw hn
  refine ⟨chunksFuel_flatten _ hk _ _ (Nat.le_refl _),
    chunksFuel_length_le _ w _ _ hwk (Nat.le_refl _),
    chunksFuel_dropLast_length _ hk _ _ (Nat.le_refl _),
    chunksFuel_mem_ne_nil _ hk _ _ (Nat.le_refl _)⟩

/-- Witness for `makeBatches_partition`: three files over two workers. -/
theorem makeBatches_partition_witness :
    (makeBatches 2 [10, 20, 30]).flatten = [10, 20, 30] ∧
    (makeBatches 2 [10, 20, 30]).length ≤ 2 ∧
    (∀ b ∈ (makeBatches 2 [10, 20, 30]).dropLast,
      b.length = analysisBatchSize ([10, 20, 30] : List Nat).length 2) ∧
    (∀ b ∈ makeBatches 2 [10, 20, 30],
      b ≠ [] ∧ b.length ≤ analysisBatchSize ([10, 20, 30] : List Nat).length 2) :=
  makeBatches_partition [10, 20, 30] 2 (by decide) (by decide)

/-! ## Cleanup and terminal-state claims (C6, C7) -/

theorem fileStep_preserves (j : AnalysisJob) (f : SourceFileSpec) :
    ((fileStep j f).1).status = j.status ∧
    ((fileStep j f).1).results = j.results ∧
    ((fileStep j f).1).error = j.error ∧
    ((fileStep j f).1).totalFiles = j.totalFiles ∧
    ((fileStep j f).1).processedFiles + ((fileStep j f).1).skippedFiles
      = j.processedFiles + j.skippedFiles + 1 := by
  rcases h : analyzeFileResult f with _ | es <;> simp [fileStep, h] <;> omega

theorem runSched_preserves (sched : List SourceFileSpec) : ∀ j : AnalysisJob,
    (runSched j sched).status = j.status ∧
    (runSched j sched).results = j.results ∧
    (runSched j sched).error = j.error ∧
    (runSched j sched).totalFiles = j.totalFiles ∧
    (runSched j sched).processedFiles + (runSched j sched).skippedFiles
      = j.processedFiles + j.skippedFiles + sched.length := by
  induction sched with
  | nil => intro j; simp [runSched]
  | cons f fs ih =>
    intro j
    obtain ⟨s1, r1, e1, t1, c1⟩ := fileStep_preserves j f
    obtain ⟨s2, r2, e2, t2, c2⟩ := ih ((fileStep j f).1)
    have hrs : runSched j (f :: fs) = runSched ((fileStep j f).1) fs := rfl
    rw [hrs]
    refine ⟨by rw [s2, s1], by rw [r2, r1], by rw [e2, e1], by rw [t2, t1], ?_⟩
    rw [List.length_cons]
    omega

@[simp] theorem runSched_status (j : AnalysisJob) (sched : List SourceFileSpec) :
    (runSched j sched).status = j.status := (runSched_preserves sched j).1

@[simp] theorem runSched_results (j : AnalysisJob) (sched : List SourceFileSpec) :
    (runSched j sched).results = j.results := (runSched_preserves sched j).2.1

@[simp] theorem runSched_error (j : AnalysisJob) (sched : List SourceFileSpec) :
    (runSched j sched).error = j.error := (runSched_preserves sched j).2.2.1

@[simp] theorem runSched_totalFiles (j : AnalysisJob) (sched : List SourceFileSpec) :
    (runSched j sched).totalFiles = j.totalFiles := (runSched_preserves sched j).2.2.2.1

/-- Oracle for a run where cloning succeeds (a temporary directory is
created) and file discovery then throws. -/
def discoverFailOracle : EngineOracle where
  cloneOk := true
  discoverOk := false
  files := []
  storeEntitiesOk := true
  storeRelationshipsOk := true
  cleanupOk := true

/-- Counterexample to C6 as stated: when discovery fails after a
successful clone, the job fails and `fs.rm` is never invoked — the
acquired temporary directory is NOT released on the failure path (the
`fs.rm` call at engine line 110 sits on the success path only, and
neither catch handler cleans up). -/
theorem failed_job_leaks_temp_dir :
    (runAnalysisJob discoverFailOracle [] (newAnalysisJob 1)).tempDirAcquired = true ∧
    (runAnalysisJob discoverFailOracle [] (newAnalysisJob 1)).finalJob.status
      = JobStatus.failed ∧
    (runAnalysisJob discoverFailOracle [] (newAnalysisJob 1)).cleanupAttempted = false :=
  ⟨rfl, rfl, rfl⟩

/-- C6 (amended): the temporary repository directory is released only on
the success path — `fs.rm` is attempted exactly when clone, discovery and
both persistence writes all succeed; any failure before that point leaves
the acquired directory in place, and an `fs.rm` error after successful
completion is caught by the queue handler and marks the job failed. -/
theorem cleanup_only_on_success_path (o : EngineOracle)
    (sched : List SourceFileSpec) (job0 : AnalysisJob) :
    ((runAnalysisJob o sched job0).tempDirAcquired = o.cloneOk) ∧
    ((runAnalysisJob o sched job0).cleanupAttempted
      = (o.cloneOk && o.discoverOk && o.storeEntitiesOk && o.storeRelationshipsOk)) ∧
    (o.cleanupOk = false → (runAnalysisJob o sched job0).cleanupAttempted = true →
      (runAnalysisJob o sched job0).finalJob.status = JobStatus.failed) := by
  obtain ⟨c, d, fls, se, sr, cu⟩ := o
  cases c <;> cases d <;> cases se <;> cases sr <;> cases cu <;>
    simp [runAnalysisJob, failJob]

/-- Witness for `cleanup_only_on_success_path`: a run whose only failure
is the cleanup call ends in the failed state. -/
theorem cleanup_only_on_success_path_witness :
    (runAnalysisJob ⟨true, true, [], true, true, false⟩ []
      (newAnalysisJob 1)).finalJob.status = JobStatus.failed :=
  (cleanup_only_on_success_path ⟨true, true, [], true, true, false⟩ []
    (newAnalysisJob 1)).2.2 rfl rfl

/-- Oracle for a run where every stage succeeds except the final `fs.rm`
of the temporary directory. -/
def cleanupFailOracle : EngineOracle where
  cloneOk := true
  discoverOk := true
  files := []
  storeEntitiesOk := true
  storeRelationshipsOk := true
  cleanupOk := false

/-- Counterexample to C7 as stated: `job.results` is assigned BEFORE the
`fs.rm` call (engine lines 77-110), so when cleanup throws, the queue
handler overwrites the completed status with failed and records the
error — the terminal job carries BOTH `results` and `error`. -/
theorem cleanup_failure_sets_results_and_error :
    (runAnalysisJob cleanupFailOracle [] (newAnalysisJob 1)).finalJob.status
      = JobStatus.failed ∧
    (runAnalysisJob cleanupFailOracle [] (newAnalysisJob 1)).finalJob.results.isSome
      = true ∧
    (runAnalysisJob cleanupFailOracle [] (newAnalysisJob 1)).finalJob.error.isSome
      = true :=
  ⟨rfl, rfl, rfl⟩

/-- C7 (amended): every executed job ends in a terminal state (completed
or failed) in which `error` is populated iff the job failed; `results` is
populated iff the job completed — PROVIDED the run is not one whose only
failure is the temp-dir cleanup after completion (there, both are
populated).  Under that proviso exactly one of `results`/`error` is set
at the terminal state. -/
theorem terminal_state_results_error_dichotomy (o : EngineOracle)
    (sched : List SourceFileSpec) (w : Nat)
    (h : o.cleanupOk = true ∨ o.cloneOk = false ∨ o.discoverOk = false ∨
      o.storeEntitiesOk = false ∨ o.storeRelationshipsOk = false) :
    ((runAnalysisJob o sched (newAnalysisJob w)).finalJob.status = JobStatus.completed ∨
     (runAnalysisJob o sched (newAnalysisJob w)).finalJob.status = JobStatus.failed) ∧
    ((runAnalysisJob o sched (newAnalysisJob w)).finalJob.results.isSome = true
      ↔ (runAnalysisJob o sched (newAnalysisJob w)).finalJob.status = JobStatus.completed) ∧
    ((runAnalysisJob o sched (newAnalysisJob w)).finalJob.error.isSome = true
      ↔ (runAnalysisJob o sched (newAnalysisJob w)).finalJob.status = JobStatus.failed) := by
  obtain ⟨c, d, fls, se, sr, cu⟩ := o
  cases c <;> cases d <;> cases se <;> cases sr <;> cases cu <;>
    simp [runAnalysisJob, failJob, newAnalysisJob] at h ⊢

/-- Witness for `terminal_state_results_error_dichotomy`: a fully
successful run on no files. -/
theorem terminal_state_results_error_dichotomy_witness :
    ((runAnalysisJob ⟨true, true, [], true, true, true⟩ []
        (newAnalysisJob 1)).finalJob.status = JobStatus.completed ∨
     (runAnalysisJob ⟨true, true, [], true, true, true⟩ []
        (newAnalysisJob 1)).finalJob.status = JobStatus.failed) ∧
    ((runAnalysisJob ⟨true, true, [], true, true, true⟩ []
        (newAnalysisJob 1)).finalJob.results.isSome = true
      ↔ (runAnalysisJob ⟨true, true, [], true, true, true⟩ []
          (newAnalysisJob 1)).finalJob.status = JobStatus.completed) ∧
    ((runAnalysisJob ⟨true, true, [], true, true, true⟩ []
        (newAnalysisJob 1)).finalJob.error.isSome = true
      ↔ (runAnalysisJob ⟨true, true, [], true, true, true⟩ []
          (newAnalysisJob 1)).finalJob.status = JobStatus.failed) :=
  terminal_state_results_error_dichotomy ⟨true, true, [], true, true, true⟩ [] 1
    (Or.inl rfl)

/-! ## Counter invariants across a run (claim C2) -/

theorem makeBatches_flatten (w : Nat) (hw : 1 ≤ w) (files : List α) :
    (makeBatches w files).flatten = files := by
  cases files with
  | nil => rw [makeBatches, chunksFuel_nil]; rfl
  | cons a l =>
    exact chunksFuel_flatten _
      (analysisBatchSize_bounds _ w hw (by simp)).1 _ _ (Nat.le_refl _)

theorem schedStates_head_cons (j : AnalysisJob) (sched : List SourceFileSpec) :
    ∃ rest, schedStates j sched = j :: rest := by
  cases sched with
  | nil => exact ⟨[], rfl⟩
  | cons f fs => exact ⟨_, rfl⟩

theorem schedStates_bound (sched : List SourceFileSpec) : ∀ j : AnalysisJob,
    ∀ s ∈ schedStates j sched,
      s.totalFiles = j.totalFiles ∧
      s.processedFiles + s.skippedFiles
        ≤ j.processedFiles + j.skippedFiles + sched.length := by
  induction sched with
  | nil =>
    intro j s hs
    rw [schedStates, List.scanl] at hs
    rcases List.mem_singleton.mp hs with rfl
    exact ⟨rfl, by omega⟩
  | cons f fs ih =>
    intro j s hs
    rw [schedStates, List.scanl] at hs
    rcases List.mem_cons.mp hs with rfl | hs
    · exact ⟨rfl, by rw [List.length_cons]; omega⟩
    · obtain ⟨-, -, -, t1, c1⟩ := fileStep_preserves j f
      obtain ⟨ht, hc⟩ := ih ((fileStep j f).1) s hs
      rw [List.length_cons]
      exact ⟨by rw [ht, t1], by omega⟩


theorem runSched_counters_eq (j : AnalysisJob) (sched : List SourceFileSpec) :
    (runSched j sched).processedFiles + (runSched j sched).skippedFiles
      = j.processedFiles + j.skippedFiles + sched.length :=
  (runSched_preserves sched j).2.2.2.2

/-- C2: starting from a freshly created job, `processedFiles +
skippedFiles ≤ totalFiles` holds at every observed state of the run, and
the two sides are equal at the terminal state whenever the job completed
— for every oracle and every event-loop interleaving `sched` of the
shards (hence regardless of the number of shards). -/
theorem job_counters_invariant (o : EngineOracle) (sched : List SourceFileSpec)
    (w : Nat) (hw : 1 ≤ w)
    (hsched : sched.Perm ((makeBatches w o.files).flatten)) :
    (∀ s ∈ (runAnalysisJob o sched (newAnalysisJob w)).states,
      s.processedFiles + s.skippedFiles ≤ s.totalFiles) ∧
    ((runAnalysisJob o sched (newAnalysisJob w)).finalJob.status = JobStatus.completed →
      (runAnalysisJob o sched (newAnalysisJob w)).finalJob.processedFiles
        + (runAnalysisJob o sched (newAnalysisJob w)).finalJob.skippedFiles
        = (runAnalysisJob o sched (newAnalysisJob w)).finalJob.totalFiles) := by
  have hlen : sched.length = o.files.length := by
    rw [hsched.length_eq, makeBatches_flatten w hw o.files]
  constructor
  · intro s hs
    by_cases hc : o.cloneOk = false
    · simp [runAnalysisJob, hc, newAnalysisJob, failJob] at hs
      rcases hs with rfl | rfl | rfl <;> simp
    by_cases hd : o.discoverOk = false
    · simp [runAnalysisJob, hc, hd, newAnalysisJob, failJob] at hs
      rcases hs with rfl | rfl | rfl | rfl <;> simp
    by_cases hse : o.storeEntitiesOk = false
    · simp [runAnalysisJob, hc, hd, hse, failJob] at hs
      rcases hs with rfl | rfl | rfl | rfl | hs | rfl | rfl | rfl
      · simp [newAnalysisJob]
      · simp [newAnalysisJob]
      · simp [newAnalysisJob]
      · simp [newAnalysisJob]
      · obtain ⟨ht, hcnt⟩ := schedStates_bound sched _ s hs
        simp [newAnalysisJob] at ht hcnt
        omega
      all_goals
        simp [newAnalysisJob, runSched_counters_eq, hlen]
    by_cases hsr : o.storeRelationshipsOk = false
    · simp [runAnalysisJob, hc, hd, hse, hsr, failJob] at hs
      rcases hs with rfl | rfl | rfl | rfl | hs | rfl | rfl | rfl
      · simp [newAnalysisJob]
      · simp [newAnalysisJob]
      · simp [newAnalysisJob]
      · simp [newAnalysisJob]
      · obtain ⟨ht, hcnt⟩ := schedStates_bound sched _ s hs
        simp [newAnalysisJob] at ht hcnt
        omega
      all_goals
        simp [newAnalysisJob, runSched_counters_eq, hlen]
    by_cases hcu : o.cleanupOk = false
    · simp [runAnalysisJob, hc, hd, hse, hsr, hcu, failJob] at hs
      rcases hs with rfl | rfl | rfl | rfl | hs | rfl | rfl | rfl | rfl | rfl
      · simp [newAnalysisJob]
      · simp [newAnalysisJob]
      · simp [newAnalysisJob]
      · simp [newAnalysisJob]
      · obtain ⟨ht, hcnt⟩ := schedStates_bound sched _ s hs
        simp [newAnalysisJob] at ht hcnt
        omega
      all_goals
        simp [newAnalysisJob, runSched_counters_eq, hlen]
    · simp [runAnalysisJob, hc, hd, hse, hsr, hcu, failJob] at hs
      rcases hs with rfl | rfl | rfl | rfl | hs | rfl | rfl | rfl | rfl
      · simp [newAnalysisJob]
      · simp [newAnalysisJob]
      · simp [newAnalysisJob]
      · simp [newAnalysisJob]
      · obtain ⟨ht, hcnt⟩ := schedStates_bound sched _ s hs
        simp [newAnalysisJob] at ht hcnt
        omega
      all_goals
        simp [newAnalysisJob, runSched_counters_eq, hlen]
  · intro hcomp
    by_cases hc : o.cloneOk = false
    · simp [runAnalysisJob, hc, failJob] at hcomp
    by_cases hd : o.discoverOk = false
    · simp [runAnalysisJob, hc, hd, failJob] at hcomp
    by_cases hse : o.storeEntitiesOk = false
    · simp [runAnalysisJob, hc, hd, hse, failJob] at hcomp
    by_cases hsr : o.storeRelationshipsOk = false
    · simp [runAnalysisJob, hc, hd, hse, hsr, failJob] at hcomp
    by_cases hcu : o.cleanupOk = false
    · simp [runAnalysisJob, hc, hd, hse, hsr, hcu, failJob] at hcomp
    · simp [runAnalysisJob, hc, hd, hse, hsr, hcu, failJob,
        newAnalysisJob, runSched_counters_eq, hlen]

/-- Witness for `job_counters_invariant`: a fully successful run over a
one-file list with one worker, the schedule being that single shard. -/
theorem job_counters_invariant_witness :
    (∀ s ∈ (runAnalysisJob ⟨true, true, [invalidSyntaxFile], true, true, true⟩
        [invalidSyntaxFile] (newAnalysisJob 1)).states,
      s.processedFiles + s.skippedFiles ≤ s.totalFiles) ∧
    ((runAnalysisJob ⟨true, true, [invalidSyntaxFile], true, true, true⟩
        [invalidSyntaxFile] (newAnalysisJob 1)).finalJob.status = JobStatus.completed →
      (runAnalysisJob ⟨true, true, [invalidSyntaxFile], true, true, true⟩
        [invalidSyntaxFile] (newAnalysisJob 1)).finalJob.processedFiles
        + (runAnalysisJob ⟨true, true, [invalidSyntaxFile], true, true, true⟩
            [invalidSyntaxFile] (newAnalysisJob 1)).finalJob.skippedFiles
        = (runAnalysisJob ⟨true, true, [invalidSyntaxFile], true, true, true⟩
            [invalidSyntaxFile] (newAnalysisJob 1)).finalJob.totalFiles) :=
  job_counters_invariant ⟨true, true, [invalidSyntaxFile], true, true, true⟩
    [invalidSyntaxFile] 1 (by decide) (by decide)

/-! ## Progress checkpoints (claim C8) -/

theorem fileStep_processed_le (j : AnalysisJob) (f : SourceFileSpec) :
    ((fileStep j f).1).processedFiles ≤ j.processedFiles + 1 := by
  rcases h : analyzeFileResult f with _ | es <;> simp [fileStep, h]

theorem fileStep_progress (j : AnalysisJob) (f : SourceFileSpec)
    (hj : j.progress = 30 + j.processedFiles * 40 / j.totalFiles) :
    ((fileStep j f).1).progress
      = 30 + ((fileStep j f).1).processedFiles * 40 / ((fileStep j f).1).totalFiles ∧
    j.progress ≤ ((fileStep j f).1).progress := by
  rcases h : analyzeFileResult f with _ | es
  · simp only [fileStep, h]
    exact ⟨hj, Nat.le_refl _⟩
  · simp only [fileStep, h]
    refine ⟨by trivial, ?_⟩
    rw [hj]
    have hdiv : j.processedFiles * 40 / j.totalFiles
        ≤ (j.processedFiles + 1) * 40 / j.totalFiles :=
      Nat.div_le_div_right (by omega)
    omega

theorem runSched_progress_inv (sched : List SourceFileSpec) : ∀ j : AnalysisJob,
    j.progress = 30 + j.processedFiles * 40 / j.totalFiles →
    (runSched j sched).progress
      = 30 + (runSched j sched).processedFiles * 40 / (runSched j sched).totalFiles := by
  induction sched with
  | nil => intro j hj; exact hj
  | cons f fs ih =>
    intro j hj
    exact ih ((fileStep j f).1) (fileStep_progress j f hj).1

theorem schedStates_progress (sched : List SourceFileSpec) : ∀ j : AnalysisJob,
    j.progress = 30 + j.processedFiles * 40 / j.totalFiles →
    List.Chain' (fun a b => a.progress ≤ b.progress) (schedStates j sched) ∧
    (∀ s ∈ schedStates j sched,
      s.progress = 30 + s.processedFiles * 40 / s.totalFiles ∧
      s.totalFiles = j.totalFiles ∧
      s.processedFiles ≤ j.processedFiles + sched.length) := by
  induction sched with
  | nil =>
    intro j hj
    refine ⟨List.chain'_singleton j, ?_⟩
    intro s hs
    rcases List.mem_singleton.mp hs with rfl
    exact ⟨hj, rfl, by omega⟩
  | cons f fs ih =>
    intro j hj
    obtain ⟨hstep, hle⟩ := fileStep_progress j f hj
    obtain ⟨hchain, hmem⟩ := ih ((fileStep j f).1) hstep
    obtain ⟨-, -, -, t1, -⟩ := fileStep_preserves j f
    have hp1 := fileStep_processed_le j f
    have hcons : schedStates j (f :: fs)
        = j :: schedStates ((fileStep j f).1) fs := rfl
    constructor
    · rw [hcons]
      refine List.chain'_cons'.mpr ⟨?_, hchain⟩
      intro y hy
      obtain ⟨rest, hrest⟩ := schedStates_head_cons ((fileStep j f).1) fs
      rw [hrest, List.head?_cons, Option.mem_some_iff] at hy
      subst hy
      exact hle
    · intro s hs
      rw [hcons, List.mem_cons] at hs
      rcases hs with rfl | hs
      · exact ⟨hj, rfl, by omega⟩
      · obtain ⟨h1, h2, h3⟩ := hmem s hs
        rw [List.length_cons]
        exact ⟨h1, by rw [h2, t1], by omega⟩

theorem schedStates_getLast? (sched : List SourceFileSpec) : ∀ j : AnalysisJob,
    (schedStates j sched).getLast? = some (runSched j sched) := by
  induction sched with
  | nil => intro j; rfl
  | cons f fs ih =>
    intro j
    have hcons : schedStates j (f :: fs)
        = j :: schedStates ((fileStep j f).1) fs := rfl
    obtain ⟨rest, hrest⟩ := schedStates_head_cons ((fileStep j f).1) fs
    rw [hcons, hrest, List.getLast?_cons_cons, ← hrest, ih]
    rfl

theorem schedStates_append_head (j : AnalysisJob) (sched : List SourceFileSpec)
    (tail : List AnalysisJob) :
    (schedStates j sched ++ tail).head? = some j := by
  obtain ⟨rest, hrest⟩ := schedStates_head_cons j sched
  rw [hrest, List.cons_append, List.head?_cons]

theorem progress_formula_le_70 (p total : Nat) (hp : p ≤ total) :
    30 + p * 40 / total ≤ 70 := by
  rcases Nat.eq_zero_or_pos total with h0 | h0
  · subst h0
    simp
  · have h1 : p * 40 ≤ total * 40 := by omega
    have h2 : p * 40 / total ≤ total * 40 / total := Nat.div_le_div_right h1
    have h3 : total * 40 / total = 40 := by
      rw [Nat.mul_comm, Nat.mul_div_cancel 40 h0]
    omega

theorem chain_states_helper (j : AnalysisJob) (sched : List SourceFileSpec)
    (tail : List AnalysisJob)
    (hj : j.progress = 30 + j.processedFiles * 40 / j.totalFiles)
    (hchainTail : List.Chain' (fun a b => a.progress ≤ b.progress) tail)
    (hhead : ∀ y ∈ tail.head?, (runSched j sched).progress ≤ y.progress) :
    List.Chain' (fun a b => a.progress ≤ b.progress) (schedStates j sched ++ tail) := by
  rw [List.chain'_append]
  refine ⟨(schedStates_progress sched j hj).1, hchainTail, ?_⟩
  intro x hx y hy
  rw [schedStates_getLast? sched j, Option.mem_some_iff] at hx
  subst hx
  exact hhead y hy

theorem runSched_progress_le_70 (j : AnalysisJob) (sched : List SourceFileSpec)
    (hjp : j.progress = 30) (hp0 : j.processedFiles = 0) (hs0 : j.skippedFiles = 0)
    (hlen2 : sched.length = j.totalFiles) :
    (runSched j sched).progress ≤ 70 := by
  have hinv : j.progress = 30 + j.processedFiles * 40 / j.totalFiles := by
    rw [hjp, hp0]
    simp
  have h1 := runSched_progress_inv sched j hinv
  have h2 := runSched_counters_eq j sched
  obtain ⟨-, -, -, ht, -⟩ := runSched_preserves sched j
  rw [h1]
  apply progress_formula_le_70
  omega

/-- C8: along every run from a freshly created job, `progress` is
monotonically non-decreasing from state to state across all checkpoint
assignments — creation (0), start (10), clone (20), discovery (30), the
per-file interpolation `30 + floor(processed/total*40)` during shard
analysis, relationship extraction (80) and persistence (100) — and stays
within [0, 100] at every observed state, for every oracle and event-loop
interleaving of the shards. -/
theorem job_progress_monotone (o : EngineOracle) (sched : List SourceFileSpec)
    (w : Nat) (hw : 1 ≤ w)
    (hsched : sched.Perm ((makeBatches w o.files).flatten)) :
    List.Chain' (fun a b => a.progress ≤ b.progress)
      (runAnalysisJob o sched (newAnalysisJob w)).states ∧
    (∀ s ∈ (runAnalysisJob o sched (newAnalysisJob w)).states, s.progress ≤ 100) := by
  have hlen : sched.length = o.files.length := by
    rw [hsched.length_eq, makeBatches_flatten w hw o.files]
  constructor
  · by_cases hc : o.cloneOk = false
    · simp [runAnalysisJob, hc, newAnalysisJob, failJob]
    by_cases hd : o.discoverOk = false
    · simp [runAnalysisJob, hc, hd, newAnalysisJob, failJob]
    by_cases hse : o.storeEntitiesOk = false
    · simp [runAnalysisJob, hc, hd, hse, failJob]
      refine ⟨by simp [newAnalysisJob], ?_⟩
      refine List.chain'_cons'.mpr ⟨?_, ?_⟩
      · intro y hy
        rw [schedStates_append_head, Option.mem_some_iff] at hy
        subst hy
        simp
      · apply chain_states_helper
        · simp [newAnalysisJob]
        · simp
          exact le_trans
            (runSched_progress_le_70 _ sched (by simp) (by simp [newAnalysisJob])
              (by simp [newAnalysisJob]) (by simp [newAnalysisJob]; exact hlen))
            (by omega)
        · intro y hy
          rw [List.head?_cons, Option.mem_some_iff] at hy
          subst hy
          simp
    by_cases hsr : o.storeRelationshipsOk = false
    · simp [runAnalysisJob, hc, hd, hse, hsr, failJob]
      refine ⟨by simp [newAnalysisJob], ?_⟩
      refine List.chain'_cons'.mpr ⟨?_, ?_⟩
      · intro y hy
        rw [schedStates_append_head, Option.mem_some_iff] at hy
        subst hy
        simp
      · apply chain_states_helper
        · simp [newAnalysisJob]
        · simp
          exact le_trans
            (runSched_progress_le_70 _ sched (by simp) (by simp [newAnalysisJob])
              (by simp [newAnalysisJob]) (by simp [newAnalysisJob]; exact hlen))
            (by omega)
        · intro y hy
          rw [List.head?_cons, Option.mem_some_iff] at hy
          subst hy
          simp
    by_cases hcu : o.cleanupOk = false
    · simp [runAnalysisJob, hc, hd, hse, hsr, hcu, failJob]
      refine ⟨by simp [newAnalysisJob], ?_⟩
      refine List.chain'_cons'.mpr ⟨?_, ?_⟩
      · intro y hy
        rw [schedStates_append_head, Option.mem_some_iff] at hy
        subst hy
        simp
      · apply chain_states_helper
        · simp [newAnalysisJob]
        · simp
          exact le_trans
            (runSched_progress_le_70 _ sched (by simp) (by simp [newAnalysisJob])
              (by simp [newAnalysisJob]) (by simp [newAnalysisJob]; exact hlen))
            (by omega)
        · intro y hy
          rw [List.head?_cons, Option.mem_some_iff] at hy
          subst hy
          simp
    · simp [runAnalysisJob, hc, hd, hse, hsr, hcu, failJob]
      refine ⟨by simp [newAnalysisJob], ?_⟩
      refine List.chain'_cons'.mpr ⟨?_, ?_⟩
      · intro y hy
        rw [schedStates_append_head, Option.mem_some_iff] at hy
        subst hy
        simp
      · apply chain_states_helper
        · simp [newAnalysisJob]
        · simp
          exact le_trans
            (runSched_progress_le_70 _ sched (by simp) (by simp [newAnalysisJob])
              (by simp [newAnalysisJob]) (by simp [newAnalysisJob]; exact hlen))
            (by omega)
        · intro y hy
          rw [List.head?_cons, Option.mem_some_iff] at hy
          subst hy
          simp
  · intro s hs
    by_cases hc : o.cloneOk = false
    · simp [runAnalysisJob, hc, newAnalysisJob, failJob] at hs
      rcases hs with rfl | rfl | rfl <;> simp
    by_cases hd : o.discoverOk = false
    · simp [runAnalysisJob, hc, hd, newAnalysisJob, failJob] at hs
      rcases hs with rfl | rfl | rfl | rfl <;> simp
    by_cases hse : o.storeEntitiesOk = false
    · simp [runAnalysisJob, hc, hd, hse, failJob] at hs
      rcases hs with rfl | rfl | rfl | rfl | hs | rfl | rfl | rfl
      · simp [newAnalysisJob]
      · simp [newAnalysisJob]
      · simp [newAnalysisJob]
      · simp [newAnalysisJob]
      · obtain ⟨h1, h2, h3⟩ :=
          (schedStates_progress sched _ (by simp [newAnalysisJob])).2 s hs
        have h4 : s.progress ≤ 70 := by
          rw [h1]
          apply progress_formula_le_70
          simp [newAnalysisJob] at h2 h3
          omega
        omega
      · simp only []
        refine le_trans ?_ (by omega : (70 : Nat) ≤ 100)
        exact runSched_progress_le_70 _ sched (by simp) (by simp [newAnalysisJob])
          (by simp [newAnalysisJob]) (by simp [newAnalysisJob]; exact hlen)
      · simp
      · simp
    by_cases hsr : o.storeRelationshipsOk = false
    · simp [runAnalysisJob, hc, hd, hse, hsr, failJob] at hs
      rcases hs with rfl | rfl | rfl | rfl | hs | rfl | rfl | rfl
      · simp [newAnalysisJob]
      · simp [newAnalysisJob]
      · simp [newAnalysisJob]
      · simp [newAnalysisJob]
      · obtain ⟨h1, h2, h3⟩ :=
          (schedStates_progress sched _ (by simp [newAnalysisJob])).2 s hs
        have h4 : s.progress ≤ 70 := by
          rw [h1]
          apply progress_formula_le_70
          simp [newAnalysisJob] at h2 h3
          omega
        omega
      · simp only []
        refine le_trans ?_ (by omega : (70 : Nat) ≤ 100)
        exact runSched_progress_le_70 _ sched (by simp) (by simp [newAnalysisJob])
          (by simp [newAnalysisJob]) (by simp [newAnalysisJob]; exact hlen)
      · simp
      · simp
    by_cases hcu : o.cleanupOk = false
    · simp [runAnalysisJob, hc, hd, hse, hsr, hcu, failJob] at hs
      rcases hs with rfl | rfl | rfl | rfl | hs | rfl | rfl | rfl | rfl | rfl
      · simp [newAnalysisJob]
      · simp [newAnalysisJob]
      · simp [newAnalysisJob]
      · simp [newAnalysisJob]
      · obtain ⟨h1, h2, h3⟩ :=
          (schedStates_progress sched _ (by simp [newAnalysisJob])).2 s hs
        have h4 : s.progress ≤ 70 := by
          rw [h1]
          apply progress_formula_le_70
          simp [newAnalysisJob] at h2 h3
          omega
        omega
      · simp only []
        refine le_trans ?_ (by omega : (70 : Nat) ≤ 100)
        exact runSched_progress_le_70 _ sched (by simp) (by simp [newAnalysisJob])
          (by simp [newAnalysisJob]) (by simp [newAnalysisJob]; exact hlen)
      · simp
      · simp
      · simp
      · simp
    · simp [runAnalysisJob, hc, hd, hse, hsr, hcu, failJob] at hs
      rcases hs with rfl | rfl | rfl | rfl | hs | rfl | rfl | rfl | rfl
      · simp [newAnalysisJob]
      · simp [newAnalysisJob]
      · simp [newAnalysisJob]
      · simp [newAnalysisJob]
      · obtain ⟨h1, h2, h3⟩ :=
          (schedStates_progress sched _ (by simp [newAnalysisJob])).2 s hs
        have h4 : s.progress ≤ 70 := by
          rw [h1]
          apply progress_formula_le_70
          simp [newAnalysisJob] at h2 h3
          omega
        omega
      · simp only []
        refine le_trans ?_ (by omega : (70 : Nat) ≤ 100)
        exact runSched_progress_le_70 _ sched (by simp) (by simp [newAnalysisJob])
          (by simp [newAnalysisJob]) (by simp [newAnalysisJob]; exact hlen)
      · simp
      · simp
      · simp

/-- Witness for `job_progress_monotone`: a fully successful one-file run
with one worker. -/
theorem job_progress_monotone_witness :
    List.Chain' (fun a b => a.progress ≤ b.progress)
      (runAnalysisJob ⟨true, true, [invalidSyntaxFile], true, true, true⟩
        [invalidSyntaxFile] (newAnalysisJob 1)).states ∧
    (∀ s ∈ (runAnalysisJob ⟨true, true, [invalidSyntaxFile], true, true, true⟩
        [invalidSyntaxFile] (newAnalysisJob 1)).states, s.progress ≤ 100) :=
  job_progress_monotone ⟨true, true, [invalidSyntaxFile], true, true, true⟩
    [invalidSyntaxFile] 1 (by decide) (by decide)

/-! ## Containment edges (claim C5) -/

theorem sum_map_ite_countP (l : List α) (p : α → Bool) :
    (l.map fun a => if p a then 1 else 0).sum = l.countP p := by
  induction l with
  | nil => rfl
  | cons a t ih =>
    rw [List.map_cons, List.sum_cons, List.countP_cons, ih]
    cases hp : p a
    · simp [hp]
    · simp [hp]
      omega

/-- C5: containment extraction emits, for the File entity `f` and every
non-File entity `c` sharing its file path, the CONTAINS edge from `f` to
`c` with strength 1.0 and confidence 1.0; every emitted edge has that
type, strength and confidence; and when `c`'s file path matches exactly
one File entity, exactly one containment edge targets `c` (no orphaned
entities) — assuming entity ids are unique, as UUIDs are. -/
theorem containment_edges_complete (entities : List CodeEntity) (f c : CodeEntity)
    (hnodup : (entities.map CodeEntity.id).Nodup)
    (hf : f ∈ entities) (hft : f.type = NodeType.FILE)
    (hc : c ∈ entities) (hct : ¬ c.type = NodeType.FILE) :
    (c.filePath = f.filePath →
      ({ sourceId := f.id, targetId := RelTarget.entity c.id,
         type := RelationshipType.CONTAINS, strength := 1, confidence := 1,
         detectionMethod := DetectionMethod.static } : CodeRelationship)
        ∈ extractContainmentRelationships entities) ∧
    (∀ r ∈ extractContainmentRelationships entities,
      r.type = RelationshipType.CONTAINS ∧ r.strength = 1 ∧ r.confidence = 1) ∧
    (((entities.filter fun e => e.type == NodeType.FILE).countP
        fun fe => c.filePath == fe.filePath) = 1 →
      (extractContainmentRelationships entities).countP
        (fun r => r.targetId == RelTarget.entity c.id) = 1) := by
  have hcmem : c ∈ entities.filter fun e => !(e.type == NodeType.FILE) := by
    rw [List.mem_filter]
    exact ⟨hc, by simp [hct]⟩
  have hcodesnodup : (entities.filter fun e => !(e.type == NodeType.FILE)).Nodup := by
    refine List.Nodup.of_map CodeEntity.id ?_
    exact List.Sublist.nodup (List.Sublist.map _ (List.filter_sublist entities)) hnodup
  have hinj : ∀ ce ∈ entities.filter fun e => !(e.type == NodeType.FILE),
      ce.id = c.id → ce = c := by
    intro ce hce hid
    have h1 : ce ∈ entities := (List.mem_filter.mp hce).1
    exact List.inj_on_of_nodup_map hnodup h1 hc hid
  refine ⟨?_, ?_, ?_⟩
  · intro hpath
    simp only [extractContainmentRelationships, List.mem_flatMap, List.mem_map,
      List.mem_filter]
    refine ⟨f, ⟨hf, by simp [hft]⟩, c, ⟨⟨hc, by simp [hct]⟩, by simp [hpath]⟩, rfl⟩
  · intro r hr
    simp only [extractContainmentRelationships, List.mem_flatMap, List.mem_map,
      List.mem_filter] at hr
    obtain ⟨fe, -, ce, -, rfl⟩ := hr
    exact ⟨rfl, rfl, rfl⟩
  · intro hone
    simp only [extractContainmentRelationships]
    rw [List.countP_flatMap]
    have hcodes : ∀ fe : CodeEntity,
        (List.countP (fun r => r.targetId == RelTarget.entity c.id) ∘ fun fe =>
          List.map (fun ce =>
            ({ sourceId := fe.id, targetId := RelTarget.entity ce.id,
               type := RelationshipType.CONTAINS, strength := 1, confidence := 1,
               detectionMethod := DetectionMethod.static } : CodeRelationship))
            (List.filter (fun ce => ce.filePath == fe.filePath)
              (entities.filter fun e => !(e.type == NodeType.FILE)))) fe
        = if c.filePath == fe.filePath then 1 else 0 := by
      intro fe
      rw [Function.comp_apply, List.countP_map, List.countP_filter]
      have hpoint : ∀ ce ∈ entities.filter fun e => !(e.type == NodeType.FILE),
          (((fun r : CodeRelationship => r.targetId == RelTarget.entity c.id) ∘ fun ce =>
            ({ sourceId := fe.id, targetId := RelTarget.entity ce.id,
               type := RelationshipType.CONTAINS, strength := 1, confidence := 1,
               detectionMethod := DetectionMethod.static } : CodeRelationship)) ce
            && ce.filePath == fe.filePath) = true
          ↔ ((ce == c) && (c.filePath == fe.filePath)) = true := by
        intro ce hce
        rw [Function.comp_apply]
        by_cases hid : ce.id = c.id
        · have hcec : ce = c := hinj ce hce hid
          rw [hcec]
          simp
        · have l1 : (RelTarget.entity ce.id == RelTarget.entity c.id) = false := by
            rw [beq_eq_false_iff_ne]
            intro hcon
            exact hid (RelTarget.entity.inj hcon)
          have l2 : (ce == c) = false := by
            rw [beq_eq_false_iff_ne]
            intro hcon
            exact hid (by rw [hcon])
          rw [l1, l2, Bool.false_and, Bool.false_and]
      rw [List.countP_congr hpoint]
      by_cases hmatch : c.filePath = fe.filePath
      · have hm : (c.filePath == fe.filePath) = true := by simp [hmatch]
        simp only [hm, Bool.and_true, if_true]
        exact List.count_eq_one_of_mem hcodesnodup hcmem
      · have hm : (c.filePath == fe.filePath) = false := by simp [hmatch]
        simp only [hm, Bool.and_false, if_false]
        simp [List.countP_false]
    rw [List.map_congr_left (fun fe _ => hcodes fe), sum_map_ite_countP]
    exact hone

/-- A File entity, as the analyzer emits for `src/a.ts`. -/
def fileEntityA : CodeEntity where
  id := 1
  name := "a.ts"
  type := NodeType.FILE
  language := LanguageType.typescript
  filePath := "src/a.ts"
  startLine := 1
  endLine := 10

/-- A Function entity discovered inside `src/a.ts`. -/
def funcEntityA : CodeEntity where
  id := 2
  name := "fn"
  type := NodeType.FUNCTION
  language := LanguageType.typescript
  filePath := "src/a.ts"
  startLine := 2
  endLine := 5

/-- Witness for `containment_edges_complete`: one file containing one
function. -/
theorem containment_edges_complete_witness :
    (funcEntityA.filePath = fileEntityA.filePath →
      ({ sourceId := fileEntityA.id, targetId := RelTarget.entity funcEntityA.id,
         type := RelationshipType.CONTAINS, strength := 1, confidence := 1,
         detectionMethod := DetectionMethod.static } : CodeRelationship)
        ∈ extractContainmentRelationships [fileEntityA, funcEntityA]) ∧
    (∀ r ∈ extractContainmentRelationships [fileEntityA, funcEntityA],
      r.type = RelationshipType.CONTAINS ∧ r.strength = 1 ∧ r.confidence = 1) ∧
    ((([fileEntityA, funcEntityA].filter fun e => e.type == NodeType.FILE).countP
        fun fe => funcEntityA.filePath == fe.filePath) = 1 →
      (extractContainmentRelationships [fileEntityA, funcEntityA]).countP
        (fun r => r.targetId == RelTarget.entity funcEntityA.id) = 1) :=
  containment_edges_complete [fileEntityA, funcEntityA] fileEntityA funcEntityA
    (by decide) (by decide) (by decide) (by decide) (by decide)
